import Mathlib

set_option maxHeartbeats 1000000

set_option maxRecDepth 100000

/-
Verification development for the beer-keg integration
(src/custom_compoents/__init__.py and src/custom_compoents/const.py).

The keg state-update pipeline is embedded shallowly: loosely-typed JSON-ish
payloads become the `JValue` type, the per-keg runtime registry, display
records and bounded pour-history become explicit Lean structures, and the
update function `_publish_keg`, the normalizer `_normalize_keg_dict`, the
daily reset `reset_daily` and the history store round-trip are translated
as pure functions over an explicit state.  Weights are modelled as exact
rationals; Python's `round(x, n)` (banker's rounding to `n` decimal
places) is modelled exactly on the rationals by `roundTo`.
-/

/-- A JSON-like dynamic value, as delivered by the REST/WebSocket payloads
and stored by the history store. -/
inductive JValue where
  | null
  | bool (b : Bool)
  | num (q : ℚ)
  | str (s : String)
  | list (xs : List JValue)
  | dict (xs : List (String × JValue))

/-- Python truthiness of a dynamic value (used by `or` and bare `if`). -/
def pyTruthy : JValue → Bool
  | JValue.null => false
  | JValue.bool b => b
  | JValue.num q => decide (q ≠ 0)
  | JValue.str s => decide (s ≠ "")
  | JValue.list xs => !xs.isEmpty
  | JValue.dict xs => !xs.isEmpty

/-- Python `str()` applied to a dynamic value.  The rendering of numbers,
lists and dicts is abstracted (no claim depends on it); strings, None and
booleans follow Python exactly. -/
def pyStr : JValue → String
  | JValue.null => "None"
  | JValue.bool true => "True"
  | JValue.bool false => "False"
  | JValue.num q => toString q
  | JValue.str s => s
  | JValue.list _ => "[...]"
  | JValue.dict _ => "\x7b...\x7d"

/-- Digits of a decimal literal, folded to a natural number (empty list
gives 0, as in the fractional part handling below). -/
def digitsToNat (cs : List Char) : ℕ :=
  cs.foldl (fun n c => n * 10 + (c.toNat - 48)) 0

/-- Parse an unsigned plain decimal literal (`"5"`, `"5.25"`, `"5."`,
`".5"`); anything else fails.  Models the accepted core of Python
`float(str)`; exponents, `inf`/`nan` and underscores are omitted (they are
exercised by no claim). -/
def parseUnsignedDecimal (cs : List Char) : Option ℚ :=
  let intPart := cs.takeWhile (fun c => c.isDigit)
  let rest := cs.dropWhile (fun c => c.isDigit)
  match rest with
  | [] => if intPart.isEmpty then none else some (digitsToNat intPart : ℚ)
  | '.' :: frac =>
      if frac.all (fun c => c.isDigit) && !(intPart.isEmpty && frac.isEmpty) then
        some ((digitsToNat intPart : ℚ) + (digitsToNat frac : ℚ) / (10 : ℚ) ^ frac.length)
      else none
  | _ => none

/-- Parse a signed plain decimal literal after stripping surrounding
whitespace, as Python `float(str)` does. -/
def parseDecimalStr (s : String) : Option ℚ :=
  match s.trim.data with
  | '-' :: rest => (parseUnsignedDecimal rest).map (fun q => -q)
  | '+' :: rest => parseUnsignedDecimal rest
  | cs => parseUnsignedDecimal cs

/-- Python `float(val)` on a dynamic value: `none` models the call
raising.  `float(None)`, `float(list)`, `float(dict)` raise; booleans map
to 0/1; numbers pass through; strings are parsed. -/
def pyFloat : JValue → Option ℚ
  | JValue.null => none
  | JValue.bool b => some (if b then 1 else 0)
  | JValue.num q => some q
  | JValue.str s => parseDecimalStr s
  | JValue.list _ => none
  | JValue.dict _ => none

/-- `_coerce_float(val, default)` from the source: `float(val)` with the
default returned on any conversion failure.  A missing key (`dict.get`
returning Python `None`) arrives here as `none` and also yields the
default, exactly as `float(None)` raising does. -/
def coerce_float (v : Option JValue) (default : ℚ) : ℚ :=
  match v with
  | none => default
  | some j => (pyFloat j).getD default

/-- Association-list lookup, modelling Python `dict.get` (first match;
the dicts modelled here never hold duplicate keys). -/
def alookup {α : Type} : List (String × α) → String → Option α
  | [], _ => none
  | p :: rest, k => if p.1 = k then some p.2 else alookup rest k

/-- Association-list assignment, modelling Python `d[k] = v`: replace in
place if the key exists, otherwise append (insertion order preserved). -/
def aset {α : Type} : List (String × α) → String → α → List (String × α)
  | [], k, v => [(k, v)]
  | p :: rest, k, v => if p.1 = k then (k, v) :: rest else p :: aset rest k v

/-- One parsed observation from the external source (`_normalize_keg_dict`
output shape). -/
structure NormalizedReading where
  keg_id : String
  name : JValue
  weight : ℚ
  temperature : Option ℚ
  full_weight : Option ℚ
  weight_calibrate : ℚ
  temperature_calibrate : ℚ

/-- Per-keg runtime registry record (`state["kegs"][keg_id]`).  The pour
timestamp is an abstract tick. -/
structure KegInfo where
  last_weight : ℚ
  daily_consumed : ℚ
  last_pour : ℚ
  last_pour_time : Option ℕ
  full_weight : ℚ
deriving DecidableEq

/-- Derived display snapshot (`state["data"][keg_id]`). -/
structure DisplayRecord where
  id : String
  name : JValue
  weight : ℚ
  temperature : Option ℚ
  full_weight : ℚ
  daily_consumed : ℚ
  last_pour : ℚ
  fill_percent : ℚ

/-- Options resolved in `async_setup_entry` and captured by
`_publish_keg`'s closure. -/
structure Config where
  empty_weight : ℚ
  default_full : ℚ
  pour_threshold : ℚ
  per_keg_full : List (String × ℚ)

/-- The per-entry mutable state dict created in `async_setup_entry`:
registry, display data, history log, fired update events, and the
durable-store contents. -/
structure KegState where
  kegs : List (String × KegInfo)
  data : List (String × DisplayRecord)
  history : List JValue
  events : List String
  stored : Option JValue

/-- KG_TO_OZ conversion constant from the source. -/
def kgToOz : ℚ := 35274 / 1000

/-- MAX_LOG_ENTRIES from const.py. -/
def maxLogEntries : ℕ := 500

/-- Banker's rounding of a rational to an integer, the semantics of
Python's `round` on exact values: nearest integer, ties to even. -/
def roundHalfEven (q : ℚ) : ℤ :=
  if q - ⌊q⌋ < 1/2 then ⌊q⌋
  else if 1/2 < q - ⌊q⌋ then ⌊q⌋ + 1
  else if ⌊q⌋ % 2 = 0 then ⌊q⌋ else ⌊q⌋ + 1

/-- Python `round(q, d)`: banker's rounding to `d` decimal places. -/
def roundTo (q : ℚ) (d : ℕ) : ℚ :=
  (roundHalfEven (q * 10 ^ d) : ℚ) / 10 ^ d

/-- Python `s.lower().replace(" ", "_")`, the keg-id canonical form.
Lower-casing is per character and the replaced pattern is a single
character, so the composition is one character-wise map. -/
def canonicalizeId (s : String) : String :=
  String.mk (s.data.map (fun c => if c.toLower = ' ' then '_' else c.toLower))

/-- `_normalize_keg_dict` from the source, field for field. -/
def normalize_keg_dict (keg : List (String × JValue)) : NormalizedReading :=
  let keg_id := canonicalizeId (pyStr ((alookup keg "id").getD (JValue.str "unknown")))
  let weight := coerce_float (alookup keg "weight") 0
  let temp : Option ℚ :=
    match alookup keg "temperature" with
    | none => none
    | some JValue.null => none
    | some j => some ((pyFloat j).getD 0)
  let full_w := coerce_float (alookup keg "full_weight") 0
  let name : JValue :=
    match alookup keg "name" with
    | none => JValue.str keg_id
    | some j => if pyTruthy j then j else JValue.str keg_id
  { keg_id := keg_id
    name := name
    weight := weight
    temperature := temp
    full_weight := if full_w > 0 then some full_w else none
    weight_calibrate := coerce_float (alookup keg "weight_calibrate") 0
    temperature_calibrate := coerce_float (alookup keg "temperature_calibrate") 0 }

/-- Python `x or y` on the optional full weight (`None` and `0.0` are
falsy, every other float truthy). -/
def optOrFull (o : Option ℚ) (y : ℚ) : ℚ :=
  match o with
  | some v => if v = 0 then y else v
  | none => y

/-- Registry get-or-create step of `_publish_keg` (source lines 144-153):
on first sight resolve the effective full weight by precedence
device-reported `or` per-keg override `or` global default, and initialize
the running fields. -/
def get_or_create (cfg : Config) (st : KegState) (norm : NormalizedReading) : KegInfo :=
  match alookup st.kegs norm.keg_id with
  | some info => info
  | none =>
      { last_weight := norm.weight
        daily_consumed := 0
        last_pour := 0
        last_pour_time := none
        full_weight := optOrFull norm.full_weight
          ((alookup cfg.per_keg_full norm.keg_id).getD cfg.default_full) }

/-- Full-weight recalibration step of `_publish_keg` (source lines
155-156): `if norm["full_weight"] and norm["full_weight"] > 0 and
norm["full_weight"] != info["full_weight"]`. -/
def fwUpdate (norm : NormalizedReading) (info : KegInfo) : KegInfo :=
  match norm.full_weight with
  | none => info
  | some v =>
      if v ≠ 0 ∧ 0 < v ∧ v ≠ info.full_weight then { info with full_weight := v } else info

/-- The registry record in effect for a reading, after get-or-create and
the recalibration update (source lines 144-156). -/
def effInfo (cfg : Config) (st : KegState) (norm : NormalizedReading) : KegInfo :=
  fwUpdate norm (get_or_create cfg st norm)

/-- Ounce amount of a detected pour (source lines 162-163):
`pour_amt = round(prev - weight, 2); pour_amt_oz = round(pour_amt * KG_TO_OZ, 1)`. -/
def pourOz (prev w : ℚ) : ℚ :=
  roundTo (roundTo (prev - w) 2 * kgToOz) 1

/-- The history dict appended on a detected pour (source lines 168-175).
The timestamp string rendering is abstracted to the tick's decimal form. -/
def mkHistoryEntry (now : ℕ) (keg : String) (pour_oz wb wa : ℚ) (temp : Option ℚ) : JValue :=
  JValue.dict
    [("timestamp", JValue.str (toString now)),
     ("keg", JValue.str keg),
     ("pour_oz", JValue.num pour_oz),
     ("weight_before", JValue.num wb),
     ("weight_after", JValue.num wa),
     ("temperature", match temp with | some t => JValue.num t | none => JValue.null)]

/-- Truncation after an append (source lines 176-177):
`if len(history) > MAX_LOG_ENTRIES: history.pop(0)`. -/
def histTrunc (h : List JValue) : List JValue :=
  if h.length > maxLogEntries then h.tail else h

/-- What `store.async_save(state["history"][-MAX_LOG_ENTRIES:])` persists:
the last `maxLogEntries` entries, as a JSON list. -/
def saveHistory (h : List JValue) : JValue :=
  JValue.list (h.drop (h.length - maxLogEntries))

/-- Startup load (source lines 103-105): the stored payload is taken
verbatim when list-shaped, otherwise the history starts empty. -/
def loadHistory (stored : Option JValue) : List JValue :=
  match stored with
  | some (JValue.list xs) => xs
  | _ => []

/-- Whether a dynamic value is list-shaped (`isinstance(loaded, list)`). -/
def JValue.isList : JValue → Bool
  | JValue.list _ => true
  | _ => false

/-- `_publish_keg` (source lines 138-194) as a pure state transition:
get-or-create and recalibrate the registry record, always update
`last_weight`, detect a pour when the weight dropped by more than the
threshold (appending to and truncating the history and flushing it to the
store), compute the clamped fill percent, rebuild the display record and
fire one update event.  `now` is the abstract current time. -/
def publish_keg (cfg : Config) (now : ℕ) (st : KegState) (norm : NormalizedReading) : KegState :=
  let keg_id := norm.keg_id
  let weight := norm.weight
  let temp := norm.temperature
  let info0 := effInfo cfg st norm
  let prev_weight := info0.last_weight
  let info1 := { info0 with last_weight := weight }
  let pour := prev_weight - weight > cfg.pour_threshold
  let pour_amt_oz := pourOz prev_weight weight
  let info2 :=
    if pour then
      { info1 with
          last_pour := pour_amt_oz
          last_pour_time := some now
          daily_consumed := info1.daily_consumed + pour_amt_oz }
    else info1
  let history :=
    if pour then
      histTrunc (st.history ++
        [mkHistoryEntry now keg_id pour_amt_oz (roundTo prev_weight 2) (roundTo weight 2) temp])
    else st.history
  let stored := if pour then some (saveHistory history) else st.stored
  let fw := info2.full_weight
  let ew := cfg.empty_weight
  let fill_pct :=
    if fw > ew then max 0 (min 100 ((weight - ew) / (fw - ew) * 100)) else 0
  let drec : DisplayRecord :=
    { id := keg_id
      name := norm.name
      weight := roundTo weight 2
      temperature := temp.map (fun t => roundTo t 1)
      full_weight := roundTo fw 2
      daily_consumed := roundTo info2.daily_consumed 1
      last_pour := roundTo info2.last_pour 1
      fill_percent := roundTo fill_pct 1 }
  { kegs := aset st.kegs keg_id info2
    data := aset st.data keg_id drec
    history := history
    events := st.events ++ [keg_id]
    stored := stored }

/-- One iteration of the `reset_daily` loop body acting on the display
data and the list of fired events (source lines 248-250). -/
def resetStep (acc : List (String × DisplayRecord) × List String)
    (p : String × KegInfo) : List (String × DisplayRecord) × List String :=
  if acc.1.any (fun q => q.1 == p.1) then
    (acc.1.map (fun q => if q.1 == p.1 then (q.1, { q.2 with daily_consumed := 0 }) else q),
     acc.2 ++ [p.1])
  else acc

/-- `reset_daily` (source lines 245-251): zero `daily_consumed` on every
registry record, zero it on the matching display records, and fire one
update event per keg present in the display data. -/
def reset_daily (st : KegState) : KegState :=
  let dz := st.kegs.foldl resetStep (st.data, [])
  { st with
      kegs := st.kegs.map (fun p => (p.1, { p.2 with daily_consumed := 0 }))
      data := dz.1
      events := st.events ++ dz.2 }

def cfgStd : Config :=
  { empty_weight := 4, default_full := 19, pour_threshold := 3/20, per_keg_full := [] }

def stW : KegState :=
  { kegs := [("k", { last_weight := 19, daily_consumed := 0, last_pour := 0,
                     last_pour_time := none, full_weight := 19 })]
    data := [], history := [], events := [], stored := none }

def normW : NormalizedReading :=
  { keg_id := "k", name := JValue.str "k", weight := 37/2, temperature := none,
    full_weight := none, weight_calibrate := 0, temperature_calibrate := 0 }

def normK0 : NormalizedReading :=
  { keg_id := "k", name := JValue.str "k", weight := 0, temperature := none,
    full_weight := none, weight_calibrate := 0, temperature_calibrate := 0 }

def st155 : KegState :=
  { kegs := [("k", { last_weight := 31/200, daily_consumed := 0, last_pour := 0,
                     last_pour_time := none, full_weight := 19 })]
    data := [], history := [], events := [], stored := none }

def stOver : KegState :=
  { kegs := [("k", { last_weight := 1, daily_consumed := 0, last_pour := 0,
                     last_pour_time := none, full_weight := 19 })]
    data := []
    history := loadHistory (some (JValue.list (List.replicate 501 JValue.null)))
    events := [], stored := none }

def st4cex : KegState :=
  { kegs := [("k", { last_weight := 10, daily_consumed := 0, last_pour := 0,
                     last_pour_time := none, full_weight := 19 })]
    data := [], history := [], events := [], stored := none }

def norm4cex : NormalizedReading :=
  { keg_id := "k", name := JValue.str "k", weight := 10, temperature := none,
    full_weight := some 2, weight_calibrate := 0, temperature_calibrate := 0 }

def stW2 : KegState :=
  { kegs := [("k", { last_weight := 19, daily_consumed := 7, last_pour := 3,
                     last_pour_time := some 5, full_weight := 19 })]
    data := [], history := [JValue.null], events := [], stored := none }

def normW2 : NormalizedReading :=
  { keg_id := "k", name := JValue.str "k", weight := 189/10, temperature := none,
    full_weight := none, weight_calibrate := 0, temperature_calibrate := 0 }

def st500 : KegState :=
  { kegs := [("k", { last_weight := 19, daily_consumed := 0, last_pour := 0,
                     last_pour_time := none, full_weight := 19 })]
    data := [], history := List.replicate 500 JValue.null, events := [], stored := none }

def st4low : KegState :=
  { kegs := [("k", { last_weight := 10, daily_consumed := 0, last_pour := 0,
                     last_pour_time := none, full_weight := 2 })]
    data := [], history := [], events := [], stored := none }

def norm4low : NormalizedReading :=
  { keg_id := "k", name := JValue.str "k", weight := 10, temperature := none,
    full_weight := none, weight_calibrate := 0, temperature_calibrate := 0 }

def stEmpty : KegState :=
  { kegs := [], data := [], history := [], events := [], stored := none }

def normFW5 : NormalizedReading :=
  { keg_id := "n", name := JValue.str "n", weight := 12, temperature := none,
    full_weight := some 5, weight_calibrate := 0, temperature_calibrate := 0 }

def disp9 : DisplayRecord :=
  { id := "a", name := JValue.str "a", weight := 1, temperature := none,
    full_weight := 19, daily_consumed := 2, last_pour := 3, fill_percent := 50 }

def st9 : KegState :=
  { kegs := [("a", { last_weight := 1, daily_consumed := 2, last_pour := 3,
                     last_pour_time := some 4, full_weight := 19 })]
    data := [("a", disp9)], history := [JValue.null], events := ["boot"], stored := none }

theorem alookup_aset_self {α : Type} (l : List (String × α)) (k : String) (v : α) :
    alookup (aset l k v) k = some v := by
  induction l with
  | nil => simp [aset, alookup]
  | cons p rest ih =>
      by_cases h : p.1 = k
      · simp [aset, alookup, h]
      · simp [aset, alookup, h, ih]

theorem alookup_aset_ne {α : Type} (l : List (String × α)) (k k' : String) (v : α)
    (h : k' ≠ k) : alookup (aset l k v) k' = alookup l k' := by
  have hk : k ≠ k' := fun hh => h hh.symm
  induction l with
  | nil => simp [aset, alookup, hk]
  | cons p rest ih =>
      by_cases hp : p.1 = k
      · have hpk' : ¬ p.1 = k' := by rw [hp]; exact hk
        simp [aset, alookup, hp, hk, hpk']
      · by_cases hp' : p.1 = k'
        · simp [aset, alookup, hp, hp', h]
        · simp [aset, alookup, hp, hp', ih]

theorem roundHalfEven_le (q : ℚ) (m : ℤ) (h : q ≤ (m : ℚ)) : roundHalfEven q ≤ m := by
  have hfl : ⌊q⌋ ≤ m := by
    calc ⌊q⌋ ≤ ⌊(m : ℚ)⌋ := Int.floor_le_floor h
    _ = m := Int.floor_intCast m
  unfold roundHalfEven
  split_ifs with h1 h2 h3
  · exact hfl
  · have hq : (⌊q⌋ : ℚ) + 1/2 < q := by
      have := Int.floor_le q
      linarith
    have hlt : (⌊q⌋ : ℚ) < (m : ℚ) := by linarith
    have : ⌊q⌋ < m := by exact_mod_cast hlt
    omega
  · exact hfl
  · have hge : 1/2 ≤ q - ⌊q⌋ := le_of_not_lt h1
    have hlt : (⌊q⌋ : ℚ) < (m : ℚ) := by linarith
    have : ⌊q⌋ < m := by exact_mod_cast hlt
    omega

theorem le_roundHalfEven (q : ℚ) (m : ℤ) (h : (m : ℚ) ≤ q) : m ≤ roundHalfEven q := by
  have hfl : m ≤ ⌊q⌋ := Int.le_floor.mpr h
  unfold roundHalfEven
  split_ifs <;> omega

theorem roundTo_le (q : ℚ) (d : ℕ) (m : ℤ) (h : q ≤ (m : ℚ)) : roundTo q d ≤ (m : ℚ) := by
  have hpow : (0 : ℚ) < 10 ^ d := by positivity
  have h1 : q * 10 ^ d ≤ ((m * 10 ^ d : ℤ) : ℚ) := by
    push_cast
    exact mul_le_mul_of_nonneg_right h (le_of_lt hpow)
  have h2 : roundHalfEven (q * 10 ^ d) ≤ m * 10 ^ d := roundHalfEven_le _ _ h1
  unfold roundTo
  rw [div_le_iff₀ hpow]
  calc (roundHalfEven (q * 10 ^ d) : ℚ) ≤ ((m * 10 ^ d : ℤ) : ℚ) := by exact_mod_cast h2
  _ = (m : ℚ) * 10 ^ d := by push_cast; ring

theorem le_roundTo (q : ℚ) (d : ℕ) (m : ℤ) (h : (m : ℚ) ≤ q) : (m : ℚ) ≤ roundTo q d := by
  have hpow : (0 : ℚ) < 10 ^ d := by positivity
  have h1 : ((m * 10 ^ d : ℤ) : ℚ) ≤ q * 10 ^ d := by
    push_cast
    exact mul_le_mul_of_nonneg_right h (le_of_lt hpow)
  have h2 : m * 10 ^ d ≤ roundHalfEven (q * 10 ^ d) := le_roundHalfEven _ _ h1
  unfold roundTo
  rw [le_div_iff₀ hpow]
  calc (m : ℚ) * 10 ^ d = ((m * 10 ^ d : ℤ) : ℚ) := by push_cast; ring
  _ ≤ (roundHalfEven (q * 10 ^ d) : ℚ) := by exact_mod_cast h2

theorem roundTo_zero (d : ℕ) : roundTo 0 d = 0 := by
  have h1 : roundTo 0 d ≤ ((0 : ℤ) : ℚ) := roundTo_le 0 d 0 (by norm_num)
  have h2 : ((0 : ℤ) : ℚ) ≤ roundTo 0 d := le_roundTo 0 d 0 (by norm_num)
  have := le_antisymm h1 h2
  simpa using this

theorem effInfo_preserves (cfg : Config) (st : KegState) (norm : NormalizedReading)
    (i : KegInfo) (h : alookup st.kegs norm.keg_id = some i) :
    (effInfo cfg st norm).last_weight = i.last_weight ∧
    (effInfo cfg st norm).daily_consumed = i.daily_consumed ∧
    (effInfo cfg st norm).last_pour = i.last_pour ∧
    (effInfo cfg st norm).last_pour_time = i.last_pour_time := by
  unfold effInfo get_or_create fwUpdate
  rw [h]
  cases norm.full_weight with
  | none => exact ⟨rfl, rfl, rfl, rfl⟩
  | some v =>
      by_cases hv : v ≠ 0 ∧ 0 < v ∧ v ≠ i.full_weight
      · simp [hv]
      · simp [hv]

/-- C2: for every processed reading whose weight drop
`delta = prev_weight - new_weight` is at most the pour threshold, no pour
is recorded: the history and the persisted store are unchanged, the
registry record keeps its `daily_consumed`, `last_pour` and
`last_pour_time` (stated both through the post-state record and, for an
already-known keg, relative to the previously stored record), and
`last_weight` still updates to the new weight. -/
theorem no_pour_below_threshold (cfg : Config) (now : ℕ) (st : KegState)
    (norm : NormalizedReading)
    (h : (effInfo cfg st norm).last_weight - norm.weight ≤ cfg.pour_threshold) :
    (publish_keg cfg now st norm).history = st.history ∧
    (publish_keg cfg now st norm).stored = st.stored ∧
    alookup (publish_keg cfg now st norm).kegs norm.keg_id
      = some { effInfo cfg st norm with last_weight := norm.weight } ∧
    (∀ i : KegInfo, alookup st.kegs norm.keg_id = some i →
       (effInfo cfg st norm).daily_consumed = i.daily_consumed ∧
       (effInfo cfg st norm).last_pour = i.last_pour ∧
       (effInfo cfg st norm).last_pour_time = i.last_pour_time) := by
  have hnp : ¬ ((effInfo cfg st norm).last_weight - norm.weight > cfg.pour_threshold) :=
    not_lt.mpr h
  have hpres : ∀ i : KegInfo, alookup st.kegs norm.keg_id = some i →
      (effInfo cfg st norm).daily_consumed = i.daily_consumed ∧
      (effInfo cfg st norm).last_pour = i.last_pour ∧
      (effInfo cfg st norm).last_pour_time = i.last_pour_time := by
    intro i hi
    exact ⟨(effInfo_preserves cfg st norm i hi).2.1,
           (effInfo_preserves cfg st norm i hi).2.2.1,
           (effInfo_preserves cfg st norm i hi).2.2.2⟩
  unfold publish_keg
  simp only [hnp, if_false, if_neg hnp]
  refine ⟨by trivial, by trivial, ?_, hpres⟩
  exact alookup_aset_self _ _ _

/-- C1 (amended): for every processed reading with
`delta = prev_weight - new_weight > pour_threshold`, the update appends
exactly one pour-history entry (followed by the truncation step), and the
registry record gets `last_weight = new weight`, `last_pour` equal to the
ounce amount and `daily_consumed` increased by that amount — which is
`round(round(delta, 2) * 35.274, 1)` (the kg delta is first rounded to 2
decimal places, as at source lines 162-163), not
`round(delta * 35.274, 1)` as the claim stated. -/
theorem pour_detected_update (cfg : Config) (now : ℕ) (st : KegState)
    (norm : NormalizedReading)
    (h : (effInfo cfg st norm).last_weight - norm.weight > cfg.pour_threshold) :
    (publish_keg cfg now st norm).history
      = histTrunc (st.history ++
          [mkHistoryEntry now norm.keg_id
            (pourOz (effInfo cfg st norm).last_weight norm.weight)
            (roundTo (effInfo cfg st norm).last_weight 2) (roundTo norm.weight 2)
            norm.temperature]) ∧
    alookup (publish_keg cfg now st norm).kegs norm.keg_id
      = some { last_weight := norm.weight
               daily_consumed := (effInfo cfg st norm).daily_consumed
                 + pourOz (effInfo cfg st norm).last_weight norm.weight
               last_pour := pourOz (effInfo cfg st norm).last_weight norm.weight
               last_pour_time := some now
               full_weight := (effInfo cfg st norm).full_weight } := by
  unfold publish_keg
  simp only [h, if_pos h, if_true]
  refine ⟨by trivial, ?_⟩
  exact alookup_aset_self _ _ _

/-- C10: the `weight_calibrate` and `temperature_calibrate` fields of a
normalized reading never influence the update pipeline: replacing them by
any other values yields the identical post-state (registry, display
record, history, events and store). -/
theorem calibration_noninterference (cfg : Config) (now : ℕ) (st : KegState)
    (r : NormalizedReading) (wc tc : ℚ) :
    publish_keg cfg now st { r with weight_calibrate := wc, temperature_calibrate := tc }
      = publish_keg cfg now st r := by
  cases r
  rfl

theorem clampRound_nonneg (x : ℚ) : 0 ≤ roundTo (max 0 (min 100 x)) 1 := by
  have h0 : ((0 : ℤ) : ℚ) ≤ max 0 (min 100 x) := by
    push_cast
    exact le_max_left 0 (min 100 x)
  have h := le_roundTo (max 0 (min 100 x)) 1 0 h0
  exact_mod_cast h

theorem clampRound_le (x : ℚ) : roundTo (max 0 (min 100 x)) 1 ≤ 100 := by
  have h1 : max 0 (min 100 x) ≤ ((100 : ℤ) : ℚ) := by
    push_cast
    exact max_le (by norm_num) (min_le_left _ _)
  have h := roundTo_le (max 0 (min 100 x)) 1 100 h1
  exact_mod_cast h

/-- C5: after every processed reading the published display record
exists and its `fill_percent` lies within [0, 100]; when the resolved
`full_weight` is at most the configured empty weight it is exactly 0. -/
theorem fill_percent_in_range (cfg : Config) (now : ℕ) (st : KegState)
    (norm : NormalizedReading) :
    ∃ d : DisplayRecord,
      alookup (publish_keg cfg now st norm).data norm.keg_id = some d ∧
      0 ≤ d.fill_percent ∧ d.fill_percent ≤ 100 ∧
      ((effInfo cfg st norm).full_weight ≤ cfg.empty_weight → d.fill_percent = 0) := by
  by_cases hp : (effInfo cfg st norm).last_weight - norm.weight > cfg.pour_threshold
  all_goals
    unfold publish_keg
    simp only [hp, if_pos, if_neg, if_true, if_false, not_false_iff]
    refine ⟨_, alookup_aset_self _ _ _, ?_⟩
    by_cases hfw : (effInfo cfg st norm).full_weight > cfg.empty_weight
    · simp only [hfw, if_pos, if_true]
      exact ⟨clampRound_nonneg _, clampRound_le _, fun hle => absurd hfw (not_lt.mpr hle)⟩
    · simp only [hfw, if_neg, if_false]
      refine ⟨?_, ?_, fun _ => roundTo_zero 1⟩
      · rw [roundTo_zero]
      · rw [roundTo_zero]; norm_num

theorem histTrunc_append_le (h : List JValue) (e : JValue)
    (hh : h.length ≤ maxLogEntries) :
    (histTrunc (h ++ [e])).length ≤ maxLogEntries := by
  unfold histTrunc
  split_ifs with hlen
  · simp only [List.length_tail, List.length_append, List.length_singleton] at *
    omega
  · simp only [List.length_append, List.length_singleton] at hlen ⊢
    omega

theorem histTrunc_append_full (h : List JValue) (e : JValue)
    (hh : h.length = maxLogEntries) :
    histTrunc (h ++ [e]) = h.tail ++ [e] := by
  unfold histTrunc
  have hlen : (h ++ [e]).length > maxLogEntries := by
    simp only [List.length_append, List.length_singleton]
    omega
  rw [if_pos hlen]
  cases h with
  | nil => simp [maxLogEntries] at hh
  | cons a t => simp

theorem publish_history_le (cfg : Config) (now : ℕ) (st : KegState)
    (norm : NormalizedReading) (h : st.history.length ≤ maxLogEntries) :
    (publish_keg cfg now st norm).history.length ≤ maxLogEntries := by
  unfold publish_keg
  by_cases hp : (effInfo cfg st norm).last_weight - norm.weight > cfg.pour_threshold
  · simp only [hp, if_pos, if_true]
    exact histTrunc_append_le _ _ h
  · simp only [hp, if_neg, if_false]
    exact h

/-- C3 (amended): provided the loaded-at-startup history has at most
`MAX_LOG_ENTRIES` (500) entries, after every sequence of processed
readings the history length stays at most 500; and when an append happens
with the history exactly at capacity, the evicted entry is the oldest one
(the head), i.e. eviction is FIFO.  (A startup payload longer than 500
entries is not trimmed back below its initial length, which is what
forces the at-most-500 hypothesis; see the counterexample.) -/
theorem history_bounded_fifo :
    (∀ (cfg : Config) (now : ℕ) (st : KegState) (norms : List NormalizedReading),
       st.history.length ≤ maxLogEntries →
       (norms.foldl (publish_keg cfg now) st).history.length ≤ maxLogEntries) ∧
    (∀ (cfg : Config) (now : ℕ) (st : KegState) (norm : NormalizedReading),
       st.history.length = maxLogEntries →
       (effInfo cfg st norm).last_weight - norm.weight > cfg.pour_threshold →
       (publish_keg cfg now st norm).history
         = st.history.tail ++
           [mkHistoryEntry now norm.keg_id
             (pourOz (effInfo cfg st norm).last_weight norm.weight)
             (roundTo (effInfo cfg st norm).last_weight 2) (roundTo norm.weight 2)
             norm.temperature]) := by
  constructor
  · intro cfg now st norms
    induction norms generalizing st with
    | nil => intro h; exact h
    | cons n rest ih =>
        intro h
        exact ih _ (publish_history_le cfg now st n h)
  · intro cfg now st norm hlen hp
    unfold publish_keg
    simp only [hp, if_pos, if_true]
    exact histTrunc_append_full _ _ hlen

theorem any_key_map (l : List (String × DisplayRecord))
    (g : String × DisplayRecord → String × DisplayRecord)
    (hg : ∀ p, (g p).1 = p.1) (k : String) :
    (l.map g).any (fun q => q.1 == k) = l.any (fun q => q.1 == k) := by
  induction l with
  | nil => rfl
  | cons p t ih => simp [List.any_cons, hg, ih]

theorem reset_fold_events (kegs : List (String × KegInfo)) :
    ∀ (data : List (String × DisplayRecord)) (evs : List String),
      (∀ p ∈ kegs, data.any (fun q => q.1 == p.1) = true) →
      (kegs.foldl resetStep (data, evs)).2 = evs ++ kegs.map (fun p => p.1) := by
  induction kegs with
  | nil => intro data evs _; simp
  | cons p t ih =>
      intro data evs hmem
      have hp := hmem p (List.mem_cons_self p t)
      simp only [List.foldl_cons]
      rw [resetStep, if_pos hp]
      have hkeys : ∀ p' ∈ t,
          (data.map (fun q => if q.1 == p.1 then (q.1, { q.2 with daily_consumed := 0 }) else q)).any
            (fun q => q.1 == p'.1) = true := by
        intro p' hp'
        rw [any_key_map]
        · exact hmem p' (List.mem_cons_of_mem _ hp')
        · intro q
          by_cases hq : q.1 == p.1
          · simp [hq]
          · simp [hq]
      rw [ih _ _ hkeys]
      simp

/-- C9: after an invocation of the daily reset on a state whose display
data covers every registered keg (an invariant of the update pipeline),
every known keg's `daily_consumed` is exactly 0, exactly one update event
fires per known keg, and no other registry field nor the history is
modified. -/
theorem reset_daily_zeroes (st : KegState)
    (h : ∀ p ∈ st.kegs, st.data.any (fun q => q.1 == p.1) = true) :
    (∀ p ∈ (reset_daily st).kegs, p.2.daily_consumed = 0) ∧
    (reset_daily st).events = st.events ++ st.kegs.map (fun p => p.1) ∧
    (reset_daily st).kegs.map
        (fun p => (p.1, p.2.last_weight, p.2.last_pour, p.2.last_pour_time, p.2.full_weight))
      = st.kegs.map
        (fun p => (p.1, p.2.last_weight, p.2.last_pour, p.2.last_pour_time, p.2.full_weight)) ∧
    (reset_daily st).history = st.history := by
  refine ⟨?_, ?_, ?_, rfl⟩
  · intro p hp
    unfold reset_daily at hp
    simp only [List.mem_map] at hp
    obtain ⟨q, _, hq⟩ := hp
    rw [← hq]
  · unfold reset_daily
    simp only
    rw [reset_fold_events st.kegs st.data [] h]
    simp
  · unfold reset_daily
    simp

/-- C6: the payload normalizer is total by construction (it is a Lean
function defined for every dynamic record, so it can never raise); the
empty record normalizes to keg id "unknown", name "unknown", weight 0,
temperature absent and full weight absent; and for every input record the
normalized `full_weight` is either absent or strictly positive (a device
value of 0 or less is mapped to absent). -/
theorem normalize_defensive :
    ((normalize_keg_dict []).keg_id = "unknown" ∧
     (normalize_keg_dict []).name = JValue.str "unknown" ∧
     (normalize_keg_dict []).weight = 0 ∧
     (normalize_keg_dict []).temperature = none ∧
     (normalize_keg_dict []).full_weight = none) ∧
    (∀ (keg : List (String × JValue)) (v : ℚ),
       (normalize_keg_dict keg).full_weight = some v → 0 < v) := by
  constructor
  · refine ⟨rfl, rfl, rfl, ?_, ?_⟩
    · rfl
    · have e : (normalize_keg_dict []).full_weight
          = (if coerce_float (alookup ([] : List (String × JValue)) "full_weight") 0 > 0
             then some (coerce_float (alookup ([] : List (String × JValue)) "full_weight") 0)
             else none) := rfl
      rw [e]
      norm_num [alookup, coerce_float]
  · intro keg v h
    have e : (normalize_keg_dict keg).full_weight
        = (if coerce_float (alookup keg "full_weight") 0 > 0
           then some (coerce_float (alookup keg "full_weight") 0)
           else none) := rfl
    rw [e] at h
    by_cases hc : coerce_float (alookup keg "full_weight") 0 > 0
    · rw [if_pos hc] at h
      cases h
      exact hc
    · rw [if_neg hc] at h
      cases h

/-- C7: on the first sighting of a keg id the created registry record
resolves its effective full weight by the precedence device-reported
value, then per-keg configured override, then global default, and
initializes `daily_consumed = 0`, `last_pour = 0`, `last_pour_time`
absent and `last_weight` equal to the reading's weight; on a subsequent
sighting where the device reports a positive full weight different from
the stored one, the stored full weight is updated to that value. -/
theorem keg_registry_create_update :
    (∀ (cfg : Config) (st : KegState) (norm : NormalizedReading) (v : ℚ),
       alookup st.kegs norm.keg_id = none → norm.full_weight = some v → 0 < v →
       effInfo cfg st norm
         = { last_weight := norm.weight, daily_consumed := 0, last_pour := 0,
             last_pour_time := none, full_weight := v }) ∧
    (∀ (cfg : Config) (st : KegState) (norm : NormalizedReading) (w : ℚ),
       alookup st.kegs norm.keg_id = none → norm.full_weight = none →
       alookup cfg.per_keg_full norm.keg_id = some w →
       effInfo cfg st norm
         = { last_weight := norm.weight, daily_consumed := 0, last_pour := 0,
             last_pour_time := none, full_weight := w }) ∧
    (∀ (cfg : Config) (st : KegState) (norm : NormalizedReading),
       alookup st.kegs norm.keg_id = none → norm.full_weight = none →
       alookup cfg.per_keg_full norm.keg_id = none →
       effInfo cfg st norm
         = { last_weight := norm.weight, daily_consumed := 0, last_pour := 0,
             last_pour_time := none, full_weight := cfg.default_full }) ∧
    (∀ (cfg : Config) (now : ℕ) (st : KegState) (norm : NormalizedReading)
       (i : KegInfo) (v : ℚ),
       alookup st.kegs norm.keg_id = some i → norm.full_weight = some v →
       0 < v → v ≠ i.full_weight →
       (alookup (publish_keg cfg now st norm).kegs norm.keg_id).map KegInfo.full_weight
         = some v) := by
  refine ⟨?_, ?_, ?_, ?_⟩
  · intro cfg st norm v hnone hfw hv
    unfold effInfo get_or_create fwUpdate optOrFull
    rw [hnone, hfw]
    have hv0 : v ≠ 0 := ne_of_gt hv
    simp [hv0]
  · intro cfg st norm w hnone hfw hper
    unfold effInfo get_or_create fwUpdate optOrFull
    rw [hnone, hfw, hper]
    rfl
  · intro cfg st norm hnone hfw hper
    unfold effInfo get_or_create fwUpdate optOrFull
    rw [hnone, hfw, hper]
    rfl
  · intro cfg now st norm i v hsome hfw hv hne
    have heff : effInfo cfg st norm = { i with full_weight := v } := by
      unfold effInfo get_or_create fwUpdate
      rw [hsome, hfw]
      have : v ≠ 0 ∧ 0 < v ∧ v ≠ i.full_weight := ⟨ne_of_gt hv, hv, hne⟩
      simp [this]
    unfold publish_keg
    rw [heff]
    by_cases hp : ({ i with full_weight := v } : KegInfo).last_weight - norm.weight
        > cfg.pour_threshold
    · simp only [hp, if_pos, if_true]
      rw [alookup_aset_self]
      rfl
    · simp only [hp, if_neg, if_false]
      rw [alookup_aset_self]
      rfl

/-- C8 (amended): persisting a history of at most `MAX_LOG_ENTRIES`
(500) entries and reloading it restores exactly the same sequence in the
same order (the save truncates longer histories to their last 500
entries, which is what forces the bound; see the counterexample); a
non-list stored payload loads as the empty history, and so does a missing
one, without error. -/
theorem history_roundtrip :
    (∀ h : List JValue, h.length ≤ maxLogEntries →
       loadHistory (some (saveHistory h)) = h) ∧
    (∀ j : JValue, j.isList = false → loadHistory (some j) = []) ∧
    loadHistory none = [] := by
  refine ⟨?_, ?_, rfl⟩
  · intro h hlen
    unfold saveHistory loadHistory
    have : h.length - maxLogEntries = 0 := by omega
    rw [this]
    exact List.drop_zero h
  · intro j hj
    cases j <;> simp [JValue.isList] at hj ⊢ <;> rfl

/-- C4 (amended): whenever the resolved `full_weight` is at most the
configured empty weight, the published `fill_percent` is exactly 0.  (The
half of the claim asserting that `full_weight` is never reduced to a
value at most the empty weight is false — no guard prevents a
device-reported recalibration below the empty weight; see the
counterexample.) -/
theorem fill_zero_when_capacity_le_empty (cfg : Config) (now : ℕ) (st : KegState)
    (norm : NormalizedReading)
    (h : (effInfo cfg st norm).full_weight ≤ cfg.empty_weight) :
    (alookup (publish_keg cfg now st norm).data norm.keg_id).map DisplayRecord.fill_percent
      = some 0 := by
  have hfw : ¬ ((effInfo cfg st norm).full_weight > cfg.empty_weight) := not_lt.mpr h
  by_cases hp : (effInfo cfg st norm).last_weight - norm.weight > cfg.pour_threshold
  all_goals
    unfold publish_keg
    simp only [hp, if_pos, if_neg, if_true, if_false, not_false_iff]
    rw [alookup_aset_self]
    simp only [Option.map_some', hfw, if_neg, if_false, not_false_iff]
    exact congrArg some (roundTo_zero 1)

theorem histTrunc_length (h : List JValue) :
    (histTrunc h).length
      = if maxLogEntries < h.length then h.length - 1 else h.length := by
  unfold histTrunc
  split_ifs with h1
  · simp [List.length_tail]
  · rfl

/-- C1 counterexample: the claim's ounce formula
`round(delta * 35.274, 1)` is not what the code computes.  At
`prev_weight = 0.155 kg`, `new_weight = 0`, `threshold = 0.15` the code
first rounds the delta to 2 decimals (0.16 kg) and records
`round(0.16 * 35.274, 1) = 5.6 oz`, while the claim's formula gives
`round(0.155 * 35.274, 1) = 5.5 oz`. -/
theorem pour_oz_formula_cex :
    ¬ (∀ (cfg : Config) (now : ℕ) (st : KegState) (norm : NormalizedReading),
        (effInfo cfg st norm).last_weight - norm.weight > cfg.pour_threshold →
        (alookup (publish_keg cfg now st norm).kegs norm.keg_id).map KegInfo.daily_consumed
          = some ((effInfo cfg st norm).daily_consumed
              + roundTo (((effInfo cfg st norm).last_weight - norm.weight) * kgToOz) 1)) := by
  intro hall
  have h1 := hall cfgStd 0 st155 normK0
    (by norm_num [effInfo, get_or_create, fwUpdate, alookup, cfgStd, st155, normK0])
  norm_num [publish_keg, effInfo, get_or_create, fwUpdate, optOrFull, alookup, aset,
    pourOz, roundTo, roundHalfEven, kgToOz, cfgStd, st155, normK0, histTrunc,
    mkHistoryEntry, saveHistory, maxLogEntries] at h1

/-- C3 counterexample: starting from a loaded-at-startup history of 501
entries (the startup load does not truncate a list-shaped payload), a
pour-appending update leaves 501 entries, exceeding the maximum of 500 —
each append evicts only one oldest entry. -/
theorem history_overflow_startup_cex :
    ¬ (∀ (cfg : Config) (now : ℕ) (st : KegState) (norm : NormalizedReading),
        (publish_keg cfg now st norm).history.length ≤ maxLogEntries) := by
  intro hall
  have h := hall cfgStd 0 stOver normK0
  have hp : (effInfo cfgStd stOver normK0).last_weight - normK0.weight
      > cfgStd.pour_threshold := by
    norm_num [effInfo, get_or_create, fwUpdate, alookup, cfgStd, stOver, normK0]
  have e : (publish_keg cfgStd 0 stOver normK0).history.length = 501 := by
    unfold publish_keg
    simp only [hp, if_pos, if_true]
    rw [histTrunc_length]
    rw [show stOver.history = List.replicate 501 JValue.null from rfl]
    rw [List.length_append, List.length_replicate]
    norm_num [maxLogEntries]
  rw [e] at h
  simp [maxLogEntries] at h

/-- C4 counterexample: with empty weight 4 kg and a stored full weight
of 19 kg, a reading whose device-reported full weight is 2 kg reduces the
stored full weight to 2 kg, which is at most the empty weight — the
claimed invariant fails. -/
theorem full_weight_reduced_cex :
    ¬ (∀ (cfg : Config) (now : ℕ) (st : KegState) (norm : NormalizedReading)
        (i j : KegInfo),
        alookup st.kegs norm.keg_id = some i →
        alookup (publish_keg cfg now st norm).kegs norm.keg_id = some j →
        cfg.empty_weight < i.full_weight → cfg.empty_weight < j.full_weight) := by
  intro hall
  have hj : alookup (publish_keg cfgStd 0 st4cex norm4cex).kegs norm4cex.keg_id
      = some { last_weight := 10, daily_consumed := 0, last_pour := 0,
               last_pour_time := none, full_weight := 2 } := by
    norm_num [publish_keg, effInfo, get_or_create, fwUpdate, optOrFull, alookup, aset,
      pourOz, roundTo, roundHalfEven, kgToOz, cfgStd, st4cex, norm4cex, histTrunc,
      mkHistoryEntry, saveHistory, maxLogEntries]
  have h := hall cfgStd 0 st4cex norm4cex _ _ rfl hj (by norm_num [cfgStd, st4cex])
  norm_num [cfgStd] at h

/-- C8 counterexample: a history of 501 entries does not survive the
persist/reload round trip — the save keeps only the last 500 entries. -/
theorem history_roundtrip_truncation_cex :
    ¬ (∀ h : List JValue, loadHistory (some (saveHistory h)) = h) := by
  intro hall
  have h1 := hall (List.replicate 501 JValue.null)
  have h2 := congrArg List.length h1
  simp only [loadHistory, saveHistory, List.length_drop, List.length_replicate,
    maxLogEntries] at h2
  omega

/-- Witness for C1 at the spec's own example: previous weight 19 kg,
reading 18.5 kg, threshold 0.15 kg — a pour of 17.6 oz is recorded. -/
theorem pour_detected_update_witness :
    ((effInfo cfgStd stW normW).last_weight - normW.weight > cfgStd.pour_threshold) ∧
    ((publish_keg cfgStd 0 stW normW).history
      = histTrunc (stW.history ++
          [mkHistoryEntry 0 normW.keg_id
            (pourOz (effInfo cfgStd stW normW).last_weight normW.weight)
            (roundTo (effInfo cfgStd stW normW).last_weight 2) (roundTo normW.weight 2)
            normW.temperature]) ∧
     alookup (publish_keg cfgStd 0 stW normW).kegs normW.keg_id
      = some { last_weight := normW.weight
               daily_consumed := (effInfo cfgStd stW normW).daily_consumed
                 + pourOz (effInfo cfgStd stW normW).last_weight normW.weight
               last_pour := pourOz (effInfo cfgStd stW normW).last_weight normW.weight
               last_pour_time := some 0
               full_weight := (effInfo cfgStd stW normW).full_weight }) := by
  have hp : (effInfo cfgStd stW normW).last_weight - normW.weight > cfgStd.pour_threshold := by
    norm_num [effInfo, get_or_create, fwUpdate, alookup, cfgStd, stW, normW]
  exact ⟨hp, pour_detected_update cfgStd 0 stW normW hp⟩

/-- Witness for C2 at the spec's own example: previous weight 19 kg,
reading 18.9 kg (delta 0.1 at most the threshold 0.15) — no pour. -/
theorem no_pour_below_threshold_witness :
    ((effInfo cfgStd stW2 normW2).last_weight - normW2.weight ≤ cfgStd.pour_threshold) ∧
    ((publish_keg cfgStd 0 stW2 normW2).history = stW2.history ∧
     (publish_keg cfgStd 0 stW2 normW2).stored = stW2.stored ∧
     alookup (publish_keg cfgStd 0 stW2 normW2).kegs normW2.keg_id
       = some { effInfo cfgStd stW2 normW2 with last_weight := normW2.weight } ∧
     (∀ i : KegInfo, alookup stW2.kegs normW2.keg_id = some i →
        (effInfo cfgStd stW2 normW2).daily_consumed = i.daily_consumed ∧
        (effInfo cfgStd stW2 normW2).last_pour = i.last_pour ∧
        (effInfo cfgStd stW2 normW2).last_pour_time = i.last_pour_time)) := by
  have h : (effInfo cfgStd stW2 normW2).last_weight - normW2.weight
      ≤ cfgStd.pour_threshold := by
    norm_num [effInfo, get_or_create, fwUpdate, alookup, cfgStd, stW2, normW2]
  exact ⟨h, no_pour_below_threshold cfgStd 0 stW2 normW2 h⟩

/-- Witness for C3: one reading from an empty history stays within the
bound, and a pour on a history of exactly 500 entries evicts the head. -/
theorem history_bounded_fifo_witness :
    (stW.history.length ≤ maxLogEntries ∧
     (([normW].foldl (publish_keg cfgStd 0) stW).history.length ≤ maxLogEntries)) ∧
    (st500.history.length = maxLogEntries ∧
     ((effInfo cfgStd st500 normK0).last_weight - normK0.weight > cfgStd.pour_threshold) ∧
     ((publish_keg cfgStd 0 st500 normK0).history
        = st500.history.tail ++
          [mkHistoryEntry 0 normK0.keg_id
            (pourOz (effInfo cfgStd st500 normK0).last_weight normK0.weight)
            (roundTo (effInfo cfgStd st500 normK0).last_weight 2) (roundTo normK0.weight 2)
            normK0.temperature])) := by
  have h1 : stW.history.length ≤ maxLogEntries := by
    simp [stW, maxLogEntries]
  have h2 : st500.history.length = maxLogEntries := by
    simp [st500, maxLogEntries]
  have hp : (effInfo cfgStd st500 normK0).last_weight - normK0.weight
      > cfgStd.pour_threshold := by
    norm_num [effInfo, get_or_create, fwUpdate, alookup, cfgStd, st500, normK0]
  exact ⟨⟨h1, history_bounded_fifo.1 cfgStd 0 stW [normW] h1⟩,
         ⟨h2, hp, history_bounded_fifo.2 cfgStd 0 st500 normK0 h2 hp⟩⟩

/-- Witness for C4: a keg whose stored full weight (2 kg) is at most
the empty weight (4 kg) publishes a fill percent of exactly 0. -/
theorem fill_zero_when_capacity_le_empty_witness :
    ((effInfo cfgStd st4low norm4low).full_weight ≤ cfgStd.empty_weight) ∧
    (alookup (publish_keg cfgStd 0 st4low norm4low).data norm4low.keg_id).map
        DisplayRecord.fill_percent = some 0 := by
  have h : (effInfo cfgStd st4low norm4low).full_weight ≤ cfgStd.empty_weight := by
    norm_num [effInfo, get_or_create, fwUpdate, alookup, cfgStd, st4low, norm4low]
  exact ⟨h, fill_zero_when_capacity_le_empty cfgStd 0 st4low norm4low h⟩

/-- Witness for C5 at a concrete reading: the published fill percent
exists and satisfies the bounds. -/
theorem fill_percent_in_range_witness :
    ∃ d : DisplayRecord,
      alookup (publish_keg cfgStd 0 stW normW).data normW.keg_id = some d ∧
      0 ≤ d.fill_percent ∧ d.fill_percent ≤ 100 ∧
      ((effInfo cfgStd stW normW).full_weight ≤ cfgStd.empty_weight → d.fill_percent = 0) :=
  fill_percent_in_range cfgStd 0 stW normW

/-- Witness for C6: a record carrying `full_weight = 5` normalizes to
`some 5`, and the theorem yields its positivity. -/
theorem normalize_defensive_witness :
    (normalize_keg_dict [("full_weight", JValue.num 5)]).full_weight = some 5 ∧ (0:ℚ) < 5 := by
  have h : (normalize_keg_dict [("full_weight", JValue.num 5)]).full_weight = some 5 := by
    norm_num [normalize_keg_dict, alookup, coerce_float, pyFloat]
  exact ⟨h, normalize_defensive.2 _ 5 h⟩

/-- Witness for C7: first sighting with device-reported full weight 5
creates the record with full weight 5; a subsequent sighting reporting
2 on a keg stored with 19 updates the stored value to 2. -/
theorem keg_registry_create_update_witness :
    (effInfo cfgStd stEmpty normFW5
       = { last_weight := normFW5.weight, daily_consumed := 0, last_pour := 0,
           last_pour_time := none, full_weight := 5 }) ∧
    ((alookup (publish_keg cfgStd 0 st4cex norm4cex).kegs norm4cex.keg_id).map
        KegInfo.full_weight = some 2) := by
  constructor
  · exact keg_registry_create_update.1 cfgStd stEmpty normFW5 5 rfl rfl (by norm_num)
  · exact keg_registry_create_update.2.2.2 cfgStd 0 st4cex norm4cex
      { last_weight := 10, daily_consumed := 0, last_pour := 0,
        last_pour_time := none, full_weight := 19 } 2
      rfl rfl (by norm_num) (by norm_num [st4cex])

/-- Witness for C8: a one-entry history round-trips unchanged, and a
numeric (non-list) payload loads as the empty history. -/
theorem history_roundtrip_witness :
    (([JValue.null] : List JValue).length ≤ maxLogEntries ∧
     loadHistory (some (saveHistory [JValue.null])) = [JValue.null]) ∧
    (JValue.isList (JValue.num 7) = false ∧ loadHistory (some (JValue.num 7)) = []) := by
  have h1 : ([JValue.null] : List JValue).length ≤ maxLogEntries := by
    simp [maxLogEntries]
  have h2 : JValue.isList (JValue.num 7) = false := rfl
  exact ⟨⟨h1, history_roundtrip.1 [JValue.null] h1⟩, ⟨h2, history_roundtrip.2.1 _ h2⟩⟩

/-- Witness for C9 at a one-keg state with nonzero daily consumption:
the reset zeroes it, fires one event for the keg and changes nothing
else. -/
theorem reset_daily_zeroes_witness :
    (∀ p ∈ st9.kegs, st9.data.any (fun q => q.1 == p.1) = true) ∧
    ((∀ p ∈ (reset_daily st9).kegs, p.2.daily_consumed = 0) ∧
     (reset_daily st9).events = st9.events ++ st9.kegs.map (fun p => p.1) ∧
     (reset_daily st9).kegs.map
         (fun p => (p.1, p.2.last_weight, p.2.last_pour, p.2.last_pour_time, p.2.full_weight))
       = st9.kegs.map
         (fun p => (p.1, p.2.last_weight, p.2.last_pour, p.2.last_pour_time, p.2.full_weight)) ∧
     (reset_daily st9).history = st9.history) := by
  have h : ∀ p ∈ st9.kegs, st9.data.any (fun q => q.1 == p.1) = true := by
    intro p hp
    simp [st9] at hp
    simp [st9, hp]
  exact ⟨h, reset_daily_zeroes st9 h⟩
